import Mathlib

/-!
Verification development for the gemma-embed-service repository.

The service (src/server.ts, full variant) exposes text-embedding and
document-reranking endpoints over an expressjs app.  The neural encoder
(tokenizer + ONNX model) is an opaque external capability; we model it as a
function `encode : String -> List α` giving one fixed vector per input string.
The numeric type of vector components is an arbitrary linear ordered field α
(instantiated at ℚ for executable witnesses and at ℝ where a genuine square
root is needed); the square-root primitive Math.sqrt is passed explicitly as a
function `sqrt : α → α`, instantiated with Real.sqrt for the norm theorems.

Stateful parts (the promise-memoized one-time model load, the server startup
with SSL fallback) are modelled as explicit state-passing functions.
-/

/-- The two role prefixes prepended before encoding, from the
EmbeddingService field that stores one string for the query role and one for
the document role. -/
structure RolePrefixes where
  query : String
  document : String

/-- The concrete prefix strings of the service. -/
def prefixes : RolePrefixes :=
  { query := "task: search result | query: "
    document := "title: none | text: " }

/-- EmbeddingGemma full (native) dimensionality, the MAX_DIMENSIONS constant. -/
def MAX_DIMENSIONS : Int := 768

/-- The configured model identifier, MODEL_INFO.id. -/
def modelId : String := "embeddinggemma-300m"

/-- countTokens: rough token estimate, the ceiling of length / 4
(Math.ceil(text.length / 4) on natural numbers). -/
def countTokens (text : String) : Nat := (text.length + 3) / 4

/-- getTotalTokens: fold of countTokens over the batch, from the reduce call. -/
def getTotalTokens (texts : List String) : Nat :=
  texts.foldl (fun total text => total + countTokens text) 0

variable {α : Type} [LinearOrderedField α]

/-- Spec-worded dot product of two vectors (componentwise products, summed). -/
def dotProduct (v w : List α) : α := (List.zipWith (fun a b => a * b) v w).sum

/-- Sum of squared components of a vector. -/
def sumSquares (v : List α) : α := (v.map fun x => x * x).sum

/-- Spec-worded Euclidean norm: square root of the sum of squares. -/
def euclideanNorm (sqrt : α → α) (v : List α) : α := sqrt (dotProduct v v)

/-- Spec-worded cosine similarity: dot product divided by the product of the
two Euclidean norms. -/
def cosineSimilarity (sqrt : α → α) (v w : List α) : α :=
  dotProduct v w / (euclideanNorm sqrt v * euclideanNorm sqrt w)

/-- Sum of `f j` for `j` ranging over `0 .. n-1`, modelling a `for` loop that
accumulates into a scalar. -/
def rangeSum (n : Nat) (f : Nat → α) : α := ((List.range n).map f).sum

/-- The manual cosine-similarity loop of EmbeddingService.rerank: one pass
over `j < queryVector.length` accumulating the dot product, the query
magnitude and the document magnitude, then
dotProduct / (Math.sqrt(queryMagnitude) * Math.sqrt(docMagnitude)).
Out-of-range reads are modelled by getD (the loop bound is the query length,
and both vectors come from the same encoder). -/
def rerankSimilarity (sqrt : α → α) (queryVector docVector : List α) : α :=
  let dotP := rangeSum queryVector.length
    (fun j => queryVector.getD j 0 * docVector.getD j 0)
  let queryMagnitude := rangeSum queryVector.length
    (fun j => queryVector.getD j 0 * queryVector.getD j 0)
  let docMagnitude := rangeSum queryVector.length
    (fun j => docVector.getD j 0 * docVector.getD j 0)
  dotP / (sqrt queryMagnitude * sqrt docMagnitude)

/-- The similarities array of rerank: one score per document vector, in input
order. -/
def rerankScores (sqrt : α → α) (queryVector : List α)
    (documentVectors : List (List α)) : List α :=
  documentVectors.map (rerankSimilarity sqrt queryVector)

/-- The ranking construction of rerank:
similarities.map((score, index) => pair).sort((a, b) => b.score - a.score)
followed by extracting the indices.  Array.prototype.sort is stable
(ECMAScript 2019), and the comparator orders by descending score, so the
result is the unique stable descending reordering; we model it with
insertion sort under the relation "a may precede b iff b.score ≤ a.score",
which is stable and orders descending. -/
def rankingOf (similarities : List α) : List Nat :=
  (similarities.enum.insertionSort (fun a b => b.2 ≤ a.2)).map Prod.fst

/-- EmbeddingService.rerank: prepend the query prefix to the query and the
document prefix to every document, encode, score every document against the
query, and return the indices sorted by descending score. -/
def rerank (sqrt : α → α) (encode : String → List α) (query : String)
    (documents : List String) : List Nat :=
  rankingOf (rerankScores sqrt (encode (prefixes.query ++ query))
    (documents.map fun doc => encode (prefixes.document ++ doc)))

/-- Per-row layer normalization, modelling the external library function
layer_norm from huggingface transformers applied along the embedding
dimension: subtract the row mean and divide by (population standard
deviation + eps), with both statistics computed over the whole row. -/
def layerNormRow (sqrt : α → α) (eps : α) (row : List α) : List α :=
  let n : α := (row.length : α)
  let mean := row.sum / n
  let variance := (row.map (fun x => (x - mean) * (x - mean))).sum / n
  row.map (fun x => (x - mean) / (sqrt variance + eps))

/-- Per-row L2 normalization, modelling Tensor.normalize(2, -1): divide every
component by the Euclidean norm of the row. -/
def l2normalizeRow (sqrt : α → α) (row : List α) : List α :=
  row.map (fun x => x / sqrt (sumSquares row))

/-- One row of the Matryoshka reduction of getEmbeddings:
layer_norm over the full row, then slice to the first targetDim components,
then L2 re-normalize. -/
def reduceRow (sqrt : α → α) (eps : α) (targetDim : Nat) (row : List α) :
    List α :=
  l2normalizeRow sqrt ((layerNormRow sqrt eps row).take targetDim)

/-- The dimension-reduction step of getEmbeddings:
`if (dimensions && dimensions < this.MAX_DIMENSIONS)` apply the three-step
reduction to every row, else return the batch unchanged.  JavaScript
truthiness makes `dimensions = 0` (and absent dimensions) skip the branch.
The slice end index is modelled on its nonnegative range (the only range
reachable through a validated request). -/
def applyMatryoshka (sqrt : α → α) (eps : α) (dimensions : Option Int)
    (embeddings : List (List α)) : List (List α) :=
  match dimensions with
  | none => embeddings
  | some d =>
    if d ≠ 0 ∧ d < MAX_DIMENSIONS then
      embeddings.map (fun row => reduceRow sqrt eps d.toNat row)
    else embeddings

/-- EmbeddingService.getEmbeddings: prepend the document prefix to every
text, encode the batch, and apply the optional Matryoshka reduction. -/
def getEmbeddings (sqrt : α → α) (eps : α) (encode : String → List α)
    (texts : List String) (dimensions : Option Int) : List (List α) :=
  applyMatryoshka sqrt eps dimensions
    (texts.map fun text => encode (prefixes.document ++ text))

/-- JavaScript truthiness of a string: the empty string is falsy. -/
def strTruthy (s : String) : Bool := s ≠ ""

/-- JavaScript truthiness of the request `input` field: absent is falsy, a
string is falsy iff empty, an array is always truthy. -/
def inputTruthy : Option (String ⊕ List String) → Bool
  | none => false
  | some (Sum.inl s) => strTruthy s
  | some (Sum.inr _) => true

/-- Truthiness of an optional string field (absent or empty is falsy). -/
def optStrTruthy : Option String → Bool
  | none => false
  | some s => strTruthy s

/-- `Array.isArray(input) ? input : [input]`: a single string is wrapped as a
one-element batch. -/
def inputTexts : String ⊕ List String → List String
  | Sum.inl s => [s]
  | Sum.inr l => l

/-- The v1/embeddings dimensions check: it fires only when the field is
truthy (present and nonzero) and the value lies outside 1..768. -/
def dimensionsRejected : Option Int → Bool
  | none => false
  | some d => d ≠ 0 && (d < 1 || MAX_DIMENSIONS < d)

/-- A POST /v1/embeddings request body after JSON parsing. -/
structure V1Request where
  input : Option (String ⊕ List String)
  model : Option String
  dimensions : Option Int
  encoding_format : Option String

/-- Outcome of the /v1/embeddings handler: a 400 invalid_request_error with a
message, or the 200 response (data rows carry their 0-based index). -/
inductive V1Outcome (α : Type) where
  | invalid (message : String)
  | success (data : List (Nat × List α)) (model : String)
      (promptTokens totalTokens : Nat)
  deriving DecidableEq

/-- The early-return validation chain of the /v1/embeddings handler, in
source order: input present/truthy, model present/truthy, model id match,
dimensions range (only when dimensions is truthy), encoding format, then the
wrapped text batch must be non-empty. -/
def v1Validate (req : V1Request) : Except String (List String × Option Int) :=
  if !inputTruthy req.input then
    Except.error "Missing required parameter: input"
  else if !optStrTruthy req.model then
    Except.error "Missing required parameter: model"
  else if req.model ≠ some modelId then
    Except.error "Model not found"
  else if dimensionsRejected req.dimensions then
    Except.error "Dimensions must be between 1 and 768"
  else if req.encoding_format.getD "float" ≠ "float" then
    Except.error "Only float encoding format is currently supported"
  else
    let texts := match req.input with
      | some i => inputTexts i
      | none => []
    if texts.length = 0 then Except.error "Input array cannot be empty"
    else Except.ok (texts, req.dimensions)

/-- The POST /v1/embeddings handler: validate, then embed and assemble the
OpenAI-shaped response (data rows indexed from 0, token usage from the coarse
character estimate).  Inference (encode) is reached only on the ok branch. -/
def handleV1Embeddings (sqrt : α → α) (eps : α) (encode : String → List α)
    (req : V1Request) : V1Outcome α :=
  match v1Validate req with
  | Except.error msg => V1Outcome.invalid msg
  | Except.ok (texts, dims) =>
    let embeddings := getEmbeddings sqrt eps encode texts dims
    let totalTokens := getTotalTokens texts
    V1Outcome.success embeddings.enum (req.model.getD "") totalTokens totalTokens

/-- Outcome of the legacy POST /embed handler. -/
inductive EmbedOutcome (α : Type) where
  | invalid (error : String)
  | success (embeddings : List (List α)) (count : Nat)
  deriving DecidableEq

/-- The legacy POST /embed handler: only input presence and non-emptiness are
validated; the dimensions field is forwarded to getEmbeddings unchecked. -/
def handleEmbed (sqrt : α → α) (eps : α) (encode : String → List α)
    (input : Option (String ⊕ List String)) (dimensions : Option Int) :
    EmbedOutcome α :=
  if !inputTruthy input then EmbedOutcome.invalid "Missing required field: input"
  else
    let texts := match input with
      | some i => inputTexts i
      | none => []
    if texts.length = 0 then EmbedOutcome.invalid "Input array cannot be empty"
    else
      let embeddings := getEmbeddings sqrt eps encode texts dimensions
      EmbedOutcome.success embeddings embeddings.length

/-- The transport a listener ends up serving. -/
inductive Transport where
  | https
  | http
  deriving DecidableEq

/-- Outcome of startServer: the process exits with a code, or a listener is
bound on a port over one transport (sslWarning records whether the HTTP-mode
warning path was taken). -/
inductive StartOutcome where
  | exited (code : Nat)
  | listening (transport : Transport) (port : Nat) (sslWarning : Bool)
  deriving DecidableEq

/-- startServer (full variant): a model-load failure exits with code 1; with
USE_SSL set, missing or unreadable certificate material is caught, a warning
is logged and the server falls back to plaintext HTTP on the same port;
otherwise HTTPS (or plain HTTP when USE_SSL is off) is served. -/
def startServer (modelLoadOk useSSL sslKeyExists sslCertExists sslReadOk : Bool)
    (port : Nat) : StartOutcome :=
  if !modelLoadOk then StartOutcome.exited 1
  else if useSSL then
    if sslKeyExists && sslCertExists && sslReadOk then
      StartOutcome.listening Transport.https port false
    else
      StartOutcome.listening Transport.http port true
  else StartOutcome.listening Transport.http port false

/-- State of the promise-memoized one-time model load: the cached promise is
modelled as the identifier of the load attempt it belongs to, and nextAttempt
counts how many underlying load operations have ever been started. -/
structure InitState where
  initPromise : Option Nat
  nextAttempt : Nat
  deriving DecidableEq

/-- One call to EmbeddingService.initialize: if a promise is already cached
(whether it later resolves or rejects) return it without starting anything;
otherwise start a new load attempt, cache its promise and return it.  The
check and the assignment run in one synchronous step of the event loop, so a
call is atomic. -/
def initCall : InitState → InitState × Nat
  | { initPromise := some p, nextAttempt := n } =>
    ({ initPromise := some p, nextAttempt := n }, p)
  | { initPromise := none, nextAttempt := n } =>
    ({ initPromise := some n, nextAttempt := n + 1 }, n)

/-- A fresh service: no cached promise, no load attempt started. -/
def initialState : InitState := { initPromise := none, nextAttempt := 0 }

/-- Run a sequence of initialize calls (concurrent callers are serialized by
the event loop), collecting the attempt each caller awaits. -/
def runInitCalls : InitState → Nat → InitState × List Nat
  | s, 0 => (s, [])
  | s, Nat.succ k =>
    let step := initCall s
    let rest := runInitCalls step.1 k
    (rest.1, step.2 :: rest.2)

/-- A 768-component probe row over ℚ: component 1 followed by 767 zeros;
concrete input used to separate the implemented reduction from naive
truncation. -/
def mrlProbeRow : List ℚ := 1 :: List.replicate 767 0

/-- A second 768-component probe row that agrees with mrlProbeRow on its
first component but has a different tail. -/
def mrlProbeRowAlt : List ℚ := 1 :: List.replicate 767 2

/-- A concrete instantiation of the square-root slot (constantly one),
keeping the probe arithmetic exact over ℚ; the separation facts below hold
at this instantiation. -/
def probeSqrt : ℚ → ℚ := fun _ => 1

/-! ## Helper lemmas -/

theorem dotProduct_cons (a b : α) (v w : List α) :
    dotProduct (a :: v) (b :: w) = a * b + dotProduct v w := by
  simp [dotProduct]

theorem rangeSum_getD_mul_eq_dotProduct :
    ∀ v w : List α, w.length = v.length →
      rangeSum v.length (fun j => v.getD j 0 * w.getD j 0) = dotProduct v w := by
  intro v
  induction v with
  | nil => intro w h; simp [rangeSum, dotProduct]
  | cons a v ih =>
    intro w h
    cases w with
    | nil => simp at h
    | cons b w =>
      have h' : w.length = v.length := by simpa using h
      rw [dotProduct_cons, ← ih w h']
      have hcomp : ((fun j => (a :: v).getD j 0 * (b :: w).getD j 0) ∘ Nat.succ)
          = (fun j => v.getD j 0 * w.getD j 0) :=
        funext fun j => by simp [Function.comp, List.getD_cons_succ]
      simp only [rangeSum, List.length_cons, List.range_succ_eq_map,
        List.map_cons, List.map_map, List.sum_cons, List.getD_cons_zero, hcomp]

theorem rerankSimilarity_eq_cosineSimilarity (sqrt : α → α) (v w : List α)
    (h : w.length = v.length) :
    rerankSimilarity sqrt v w = cosineSimilarity sqrt v w := by
  unfold rerankSimilarity cosineSimilarity euclideanNorm
  rw [rangeSum_getD_mul_eq_dotProduct v w h,
    rangeSum_getD_mul_eq_dotProduct v v rfl]
  have hw : rangeSum v.length (fun j => w.getD j 0 * w.getD j 0)
      = rangeSum w.length (fun j => w.getD j 0 * w.getD j 0) := by rw [h]
  rw [hw, rangeSum_getD_mul_eq_dotProduct w w rfl]

theorem runInitCalls_cached (a m : Nat) :
    ∀ k, runInitCalls { initPromise := some a, nextAttempt := m } k
      = ({ initPromise := some a, nextAttempt := m }, List.replicate k a) := by
  intro k
  induction k with
  | zero => simp [runInitCalls]
  | succ k ih => simp [runInitCalls, initCall, ih, List.replicate_succ]

/-! ## Claim theorems -/

/-- Claim C1: for every rerank call, the similarity score of each document is
the cosine similarity (dot product over the product of Euclidean norms)
between the native-dimension document vector and the native-dimension query
vector, with no dimensionality reduction applied to either vector: the scores
are computed directly from the full 768-dimension encoder outputs, and the
ranking is the descending sort of exactly those cosine values. -/
theorem rerank_scores_native_cosine (sqrt : α → α) (encode : String → List α)
    (query : String) (documents : List String)
    (hq : (encode (prefixes.query ++ query)).length = 768)
    (hdocs : ∀ doc ∈ documents, (encode (prefixes.document ++ doc)).length = 768) :
    rerankScores sqrt (encode (prefixes.query ++ query))
        (documents.map fun doc => encode (prefixes.document ++ doc))
      = documents.map (fun doc =>
          cosineSimilarity sqrt (encode (prefixes.query ++ query))
            (encode (prefixes.document ++ doc)))
    ∧ rerank sqrt encode query documents
      = rankingOf (documents.map fun doc =>
          cosineSimilarity sqrt (encode (prefixes.query ++ query))
            (encode (prefixes.document ++ doc))) := by
  have hmain : rerankScores sqrt (encode (prefixes.query ++ query))
      (documents.map fun doc => encode (prefixes.document ++ doc))
      = documents.map (fun doc =>
          cosineSimilarity sqrt (encode (prefixes.query ++ query))
            (encode (prefixes.document ++ doc))) := by
    unfold rerankScores
    rw [List.map_map]
    apply List.map_congr_left
    intro doc hdoc
    exact rerankSimilarity_eq_cosineSimilarity sqrt _ _
      (by rw [hdocs doc hdoc, hq])
  refine ⟨hmain, ?_⟩
  unfold rerank
  rw [hmain]

theorem rerank_scores_native_cosine_witness :
    rerankScores (fun x : ℚ => x)
        ((fun _ : String => List.replicate 768 (0 : ℚ)) (prefixes.query ++ "q"))
        (["d"].map fun doc =>
          (fun _ : String => List.replicate 768 (0 : ℚ)) (prefixes.document ++ doc))
      = ["d"].map (fun doc =>
          cosineSimilarity (fun x : ℚ => x)
            ((fun _ : String => List.replicate 768 (0 : ℚ)) (prefixes.query ++ "q"))
            ((fun _ : String => List.replicate 768 (0 : ℚ)) (prefixes.document ++ doc)))
    ∧ rerank (fun x : ℚ => x) (fun _ : String => List.replicate 768 (0 : ℚ)) "q" ["d"]
      = rankingOf (["d"].map (fun doc =>
          cosineSimilarity (fun x : ℚ => x)
            ((fun _ : String => List.replicate 768 (0 : ℚ)) (prefixes.query ++ "q"))
            ((fun _ : String => List.replicate 768 (0 : ℚ)) (prefixes.document ++ doc)))) :=
  rerank_scores_native_cosine (fun x => x)
    (fun _ => List.replicate 768 (0 : ℚ)) "q" ["d"]
    (by simp only [List.length_replicate])
    (by intro doc _; simp only [List.length_replicate])

/-- Claim C6: the promise-memoized model-initialization lifecycle performs
the underlying load at most once per process: any positive number of
sequentially interleaved calls (the event loop serializes the synchronous
check-and-cache step) all receive the promise of the single attempt 0, and
exactly one attempt is ever started, so all callers observe that one
attempt's outcome — success for all or the same cached rejection for all —
and no later call after a failure starts a new load. -/
theorem initCall_single_attempt (n : Nat) (h : 0 < n) :
    (runInitCalls initialState n).2 = List.replicate n 0 ∧
    (runInitCalls initialState n).1.nextAttempt = 1 := by
  obtain ⟨k, rfl⟩ : ∃ k, n = k + 1 := ⟨n - 1, by omega⟩
  simp [runInitCalls, initialState, initCall, runInitCalls_cached,
    List.replicate_succ]

theorem initCall_single_attempt_witness :
    (runInitCalls initialState 3).2 = List.replicate 3 0 ∧
    (runInitCalls initialState 3).1.nextAttempt = 1 :=
  initCall_single_attempt 3 (by decide)

/-- Claim C8: when SSL mode is requested at startup but the certificate key
or certificate file is absent or unreadable, startServer (full variant)
serves plaintext HTTP on the same port with the fallback warning logged,
instead of exiting. -/
theorem ssl_fallback_serves_http (useSSL key cert readOk : Bool) (port : Nat)
    (hssl : useSSL = true)
    (hmiss : key = false ∨ cert = false ∨ readOk = false) :
    startServer true useSSL key cert readOk port =
      StartOutcome.listening Transport.http port true := by
  subst hssl
  rcases hmiss with h | h | h <;> subst h <;> simp [startServer]

theorem ssl_fallback_serves_http_witness :
    startServer true true false true true 8082 =
      StartOutcome.listening Transport.http 8082 true :=
  ssl_fallback_serves_http true false true true 8082 rfl (Or.inl rfl)

theorem pair_get_sublist {β : Type} (l : List β) (i j : Nat) (a b : β)
    (hij : i < j) (hj : j < l.length)
    (ha : l.get ⟨i, lt_trans hij hj⟩ = a) (hb : l.get ⟨j, hj⟩ = b) :
    [a, b].Sublist l := by
  subst ha
  subst hb
  simp only [List.get_eq_getElem]
  have hi : i < l.length := lt_trans hij hj
  have hdrop : l[i] :: l.drop (i + 1) = l.drop i := List.cons_getElem_drop_succ
  have hlen : j - (i + 1) < (l.drop (i + 1)).length := by
    rw [List.length_drop]; omega
  have hjmem : l[j] ∈ l.drop (i + 1) := by
    have hgd2 : (l.drop (i + 1))[j - (i + 1)] = l[j] := by
      rw [List.getElem_drop l]
      congr 1
      omega
    exact hgd2 ▸ List.getElem_mem hlen
  have h1 : [l[i], l[j]].Sublist (l[i] :: l.drop (i + 1)) :=
    List.Sublist.cons₂ _ (List.singleton_sublist.mpr hjmem)
  exact h1.trans (hdrop ▸ List.drop_sublist i l)

theorem rankingOf_perm_range (similarities : List α) :
    (rankingOf similarities).Perm (List.range similarities.length) := by
  unfold rankingOf
  have h1 := (List.perm_insertionSort (fun a b : Nat × α => b.2 ≤ a.2)
    similarities.enum).map Prod.fst
  rwa [List.enum_map_fst] at h1

/-- Claim C2: for every non-empty documents list, rerank returns a
permutation of the indices 0 .. len(documents) - 1: the output has length
len(documents) and every 0-based input index appears in it exactly once — a
full ranking, never a top-K filter. -/
theorem rerank_full_permutation (sqrt : α → α) (encode : String → List α)
    (query : String) (documents : List String) (h : documents ≠ []) :
    (rerank sqrt encode query documents).Perm (List.range documents.length)
    ∧ (rerank sqrt encode query documents).length = documents.length
    ∧ ∀ i < documents.length, (rerank sqrt encode query documents).count i = 1 := by
  have hlen : (rerankScores sqrt (encode (prefixes.query ++ query))
      (documents.map fun doc => encode (prefixes.document ++ doc))).length
      = documents.length := by simp [rerankScores]
  have hperm : (rerank sqrt encode query documents).Perm
      (List.range documents.length) := by
    have h1 := rankingOf_perm_range (rerankScores sqrt
      (encode (prefixes.query ++ query))
      (documents.map fun doc => encode (prefixes.document ++ doc)))
    rw [hlen] at h1
    exact h1
  refine ⟨hperm, ?_, ?_⟩
  · rw [hperm.length_eq, List.length_range]
  · intro i hi
    rw [hperm.count_eq]
    exact List.count_eq_one_of_mem (List.nodup_range _)
      (List.mem_range.mpr hi)

theorem rerank_full_permutation_witness :
    (rerank (fun x : ℚ => x) (fun _ => [(1 : ℚ)]) "q" ["a", "b"]).Perm
      (List.range (["a", "b"] : List String).length)
    ∧ (rerank (fun x : ℚ => x) (fun _ => [(1 : ℚ)]) "q" ["a", "b"]).length
      = (["a", "b"] : List String).length
    ∧ ∀ i < (["a", "b"] : List String).length,
        (rerank (fun x : ℚ => x) (fun _ => [(1 : ℚ)]) "q" ["a", "b"]).count i = 1 :=
  rerank_full_permutation (fun x => x) (fun _ => [(1 : ℚ)]) "q" ["a", "b"]
    (by decide)

/-- Claim C5: the descending-score sort of rerank is stable with respect to
the original input order: whenever two documents at input positions i < j
receive exactly equal similarity scores, index i appears before index j in
the output ranking (the pair occurs in input order as a sublist of the
output), so the result is deterministic. -/
theorem rerank_stable_on_ties (sqrt : α → α) (encode : String → List α)
    (query : String) (documents : List String) (i j : Nat)
    (hij : i < j) (hj : j < documents.length)
    (heq : (rerankScores sqrt (encode (prefixes.query ++ query))
        (documents.map fun doc => encode (prefixes.document ++ doc))).getD i 0
      = (rerankScores sqrt (encode (prefixes.query ++ query))
        (documents.map fun doc => encode (prefixes.document ++ doc))).getD j 0) :
    [i, j].Sublist (rerank sqrt encode query documents) := by
  set sims := rerankScores sqrt (encode (prefixes.query ++ query))
    (documents.map fun doc => encode (prefixes.document ++ doc)) with hsims
  have hlen : sims.length = documents.length := by
    rw [hsims]; simp [rerankScores]
  have hj' : j < sims.length := by rw [hlen]; exact hj
  have hi' : i < sims.length := lt_trans hij hj'
  have hjE : j < sims.enum.length := by rw [List.enum_length]; exact hj'
  have hiE : i < sims.enum.length := lt_trans hij hjE
  have hpair : [(i, sims.get ⟨i, hi'⟩), (j, sims.get ⟨j, hj'⟩)].Sublist
      sims.enum :=
    pair_get_sublist sims.enum i j _ _ hij hjE
      (by simp [List.get_eq_getElem, List.getElem_enum])
      (by simp [List.get_eq_getElem, List.getElem_enum])
  have hr : (fun a b : Nat × α => b.2 ≤ a.2)
      (i, sims.get ⟨i, hi'⟩) (j, sims.get ⟨j, hj'⟩) := by
    show sims.get ⟨j, hj'⟩ ≤ sims.get ⟨i, hi'⟩
    have h1 : sims.getD i 0 = sims.get ⟨i, hi'⟩ := by
      rw [List.getD_eq_getElem sims 0 hi']
      simp [List.get_eq_getElem]
    have h2 : sims.getD j 0 = sims.get ⟨j, hj'⟩ := by
      rw [List.getD_eq_getElem sims 0 hj']
      simp [List.get_eq_getElem]
    rw [← h1, ← h2, heq]
  have hsorted : [(i, sims.get ⟨i, hi'⟩), (j, sims.get ⟨j, hj'⟩)].Sublist
      (sims.enum.insertionSort (fun a b => b.2 ≤ a.2)) :=
    List.pair_sublist_insertionSort hr hpair
  have hmap := hsorted.map Prod.fst
  simp only [rerank, rankingOf, ← hsims]
  simpa using hmap

theorem rerank_stable_on_ties_witness :
    [0, 1].Sublist (rerank (fun x : ℚ => x) (fun _ => [(1 : ℚ)]) "q" ["a", "b"]) :=
  rerank_stable_on_ties (fun x => x) (fun _ => [(1 : ℚ)]) "q" ["a", "b"] 0 1
    (by decide) (by decide) (by simp [rerankScores])

theorem reduceRow_probe (n : Nat) (x y : ℚ) :
    reduceRow probeSqrt 0 1 (x :: List.replicate n y)
      = [x - (x + (n : ℚ) * y) / ((n : ℚ) + 1)] := by
  simp only [reduceRow, layerNormRow, l2normalizeRow, probeSqrt, sumSquares,
    List.map_cons, List.take_succ_cons, List.take_zero, List.sum_cons,
    List.sum_replicate, List.length_cons, List.length_replicate,
    List.map_nil, List.sum_nil, smul_eq_mul, List.cons.injEq, and_true]
  push_cast
  ring_nf

/-- Claim C3: for every batch and every targetDim with 1 ≤ targetDim < 768,
the reduction is exactly layer-normalize (statistics over the full native
row) then slice to the first targetDim components then L2 re-normalize, in
that order; it is not naive truncation (the two differ on a concrete row),
and its output depends on components beyond the slice (two rows with equal
first components but different tails reduce differently), which shows the
normalization statistics are taken before truncation. -/
theorem mrl_reduction_three_step_order (sqrt : α → α) (eps : α) (d : Int)
    (h1 : 1 ≤ d) (h2 : d < MAX_DIMENSIONS) (embeddings : List (List α)) :
    applyMatryoshka sqrt eps (some d) embeddings
      = embeddings.map (fun row =>
          l2normalizeRow sqrt ((layerNormRow sqrt eps row).take d.toNat))
    ∧ reduceRow probeSqrt 0 1 mrlProbeRow
        ≠ l2normalizeRow probeSqrt (mrlProbeRow.take 1)
    ∧ mrlProbeRow.take 1 = mrlProbeRowAlt.take 1
    ∧ reduceRow probeSqrt 0 1 mrlProbeRow
        ≠ reduceRow probeSqrt 0 1 mrlProbeRowAlt := by
  refine ⟨?_, ?_, ?_, ?_⟩
  · have hunfold : applyMatryoshka sqrt eps (some d) embeddings
        = if d ≠ 0 ∧ d < MAX_DIMENSIONS then
            embeddings.map (fun row => reduceRow sqrt eps d.toNat row)
          else embeddings := rfl
    rw [hunfold, if_pos ⟨by omega, h2⟩]
    rfl
  · rw [show mrlProbeRow = 1 :: List.replicate 767 0 from rfl, reduceRow_probe,
      show (((1 : ℚ) :: List.replicate 767 0).take 1) = [1] from rfl]
    simp only [l2normalizeRow, probeSqrt, sumSquares, List.map_cons,
      List.map_nil, List.sum_cons, List.sum_nil, List.cons.injEq, and_true,
      ne_eq]
    norm_num
  · rfl
  · rw [show mrlProbeRow = 1 :: List.replicate 767 0 from rfl,
      show mrlProbeRowAlt = 1 :: List.replicate 767 2 from rfl,
      reduceRow_probe, reduceRow_probe]
    simp only [List.cons.injEq, and_true, ne_eq]
    norm_num

theorem mrl_reduction_three_step_order_witness :
    applyMatryoshka (fun x : ℚ => x) 0 (some 256) [[(1 : ℚ)]]
      = [[(1 : ℚ)]].map (fun row =>
          l2normalizeRow (fun x : ℚ => x)
            ((layerNormRow (fun x : ℚ => x) 0 row).take (Int.toNat 256)))
    ∧ reduceRow probeSqrt 0 1 mrlProbeRow
        ≠ l2normalizeRow probeSqrt (mrlProbeRow.take 1)
    ∧ mrlProbeRow.take 1 = mrlProbeRowAlt.take 1
    ∧ reduceRow probeSqrt 0 1 mrlProbeRow
        ≠ reduceRow probeSqrt 0 1 mrlProbeRowAlt :=
  mrl_reduction_three_step_order (fun x : ℚ => x) 0 256 (by decide) (by decide)
    [[(1 : ℚ)]]

theorem sumSquares_nonneg (v : List α) : 0 ≤ sumSquares v :=
  List.sum_nonneg fun x hx => by
    obtain ⟨t, _, rfl⟩ := List.mem_map.mp hx
    exact mul_self_nonneg t

theorem dotProduct_self_eq_sumSquares (v : List α) :
    dotProduct v v = sumSquares v := by
  simp [dotProduct, sumSquares, List.zipWith_same]

theorem sumSquares_l2normalizeRow (t : List ℝ) (h : sumSquares t ≠ 0) :
    sumSquares (l2normalizeRow Real.sqrt t) = 1 := by
  have hs : Real.sqrt (sumSquares t) * Real.sqrt (sumSquares t)
      = sumSquares t := Real.mul_self_sqrt (sumSquares_nonneg t)
  have h1 : sumSquares (l2normalizeRow Real.sqrt t)
      = (t.map fun x => x * x *
          (Real.sqrt (sumSquares t) * Real.sqrt (sumSquares t))⁻¹).sum := by
    unfold sumSquares l2normalizeRow
    rw [List.map_map]
    apply congrArg
    apply List.map_congr_left
    intro x _
    simp only [Function.comp_apply]
    rw [div_mul_div_comm, div_eq_mul_inv]
    rfl
  rw [h1, List.sum_map_mul_right, hs]
  show sumSquares t * (sumSquares t)⁻¹ = 1
  exact mul_inv_cancel₀ h

/-- Claim C4: for every valid targetDim with 1 ≤ targetDim ≤ 768, each vector
produced by the dimensionality-reduction step has exactly targetDim
components and Euclidean norm 1 (exactly, in the real-arithmetic model of the
floating-point computation), where at targetDim strictly below 768 the
truncated layer-normalized row is assumed nonzero (otherwise the
floating-point code divides zero by zero) and at targetDim = 768 — where the
reduction is skipped entirely and the vector is passed through unaltered —
the unit norm is exactly the encoder guarantee assumed of the input row.
The second conjunct states the no-op: at targetDim = 768 every batch is
returned unchanged, scale and normalization untouched. -/
theorem reducer_output_length_and_unit_norm (eps : ℝ) (d : Int) (row : List ℝ)
    (hlen : row.length = 768) (h1 : 1 ≤ d) (h2 : d ≤ 768)
    (hnz : d < 768 →
      sumSquares ((layerNormRow Real.sqrt eps row).take d.toNat) ≠ 0)
    (hnative : d = 768 → sumSquares row = 1) :
    (∀ out ∈ applyMatryoshka Real.sqrt eps (some d) [row],
        out.length = d.toNat ∧ euclideanNorm Real.sqrt out = 1)
    ∧ ∀ embeddings : List (List ℝ),
        applyMatryoshka Real.sqrt eps (some 768) embeddings = embeddings := by
  constructor
  · intro out hout
    by_cases hd : d < 768
    · have happ : applyMatryoshka Real.sqrt eps (some d) [row]
          = [reduceRow Real.sqrt eps d.toNat row] := by
        have hu : applyMatryoshka Real.sqrt eps (some d) [row]
            = if d ≠ 0 ∧ d < MAX_DIMENSIONS then
                [row].map (fun r => reduceRow Real.sqrt eps d.toNat r)
              else [row] := rfl
        rw [hu, if_pos ⟨by omega, hd⟩]
        simp
      rw [happ] at hout
      simp only [List.mem_singleton] at hout
      subst hout
      constructor
      · simp only [reduceRow, l2normalizeRow, layerNormRow, List.length_map,
          List.length_take]
        rw [hlen]
        omega
      · have hrr : reduceRow Real.sqrt eps d.toNat row
            = l2normalizeRow Real.sqrt
                ((layerNormRow Real.sqrt eps row).take d.toNat) := rfl
        rw [hrr, euclideanNorm, dotProduct_self_eq_sumSquares,
          sumSquares_l2normalizeRow _ (hnz hd), Real.sqrt_one]
    · have hd768 : d = 768 := by omega
      subst hd768
      have happ : applyMatryoshka Real.sqrt eps (some 768) [row] = [row] := by
        have hu : applyMatryoshka Real.sqrt eps (some (768 : Int)) [row]
            = if (768 : Int) ≠ 0 ∧ (768 : Int) < MAX_DIMENSIONS then
                [row].map (fun r => reduceRow Real.sqrt eps (768 : Int).toNat r)
              else [row] := rfl
        rw [hu, if_neg (by decide)]
      rw [happ] at hout
      simp only [List.mem_singleton] at hout
      subst hout
      refine ⟨by rw [hlen]; rfl, ?_⟩
      rw [euclideanNorm, dotProduct_self_eq_sumSquares, hnative rfl,
        Real.sqrt_one]
  · intro embeddings
    have hu : applyMatryoshka Real.sqrt eps (some (768 : Int)) embeddings
        = if (768 : Int) ≠ 0 ∧ (768 : Int) < MAX_DIMENSIONS then
            embeddings.map (fun r => reduceRow Real.sqrt eps (768 : Int).toNat r)
          else embeddings := rfl
    rw [hu, if_neg (by decide)]

theorem reducer_output_length_and_unit_norm_witness :
    (∀ out ∈ applyMatryoshka Real.sqrt 0 (some 768)
        [(1 : ℝ) :: List.replicate 767 0],
        out.length = (768 : Int).toNat ∧ euclideanNorm Real.sqrt out = 1)
    ∧ ∀ embeddings : List (List ℝ),
        applyMatryoshka Real.sqrt 0 (some 768) embeddings = embeddings :=
  reducer_output_length_and_unit_norm 0 768 ((1 : ℝ) :: List.replicate 767 0)
    (by rw [List.length_cons, List.length_replicate]) (by decide) (by decide)
    (fun hlt => absurd hlt (by decide))
    (fun _ => by
      simp only [sumSquares, List.map_cons, List.map_replicate, List.sum_cons,
        List.sum_replicate, mul_zero, smul_zero, mul_one, add_zero])

theorem applyMatryoshka_some (sqrt : α → α) (eps : α) (d : Int)
    (e : List (List α)) :
    applyMatryoshka sqrt eps (some d) e
      = if d ≠ 0 ∧ d < MAX_DIMENSIONS then
          e.map (fun row => reduceRow sqrt eps d.toNat row)
        else e := rfl

theorem applyMatryoshka_length (sqrt : α → α) (eps : α) (dims : Option Int)
    (e : List (List α)) :
    (applyMatryoshka sqrt eps dims e).length = e.length := by
  cases dims with
  | none => rfl
  | some d =>
    rw [applyMatryoshka_some]
    split <;> simp

theorem dimensionsRejected_true (d : Int) (h0 : d ≠ 0)
    (hout : d < 1 ∨ MAX_DIMENSIONS < d) :
    dimensionsRejected (some d) = true := by
  unfold dimensionsRejected
  rcases hout with h | h <;> simp [h0, h]

theorem v1Validate_dimensions_error (req : V1Request) (d : Int)
    (hd : req.dimensions = some d) (h0 : d ≠ 0)
    (hout : d < 1 ∨ MAX_DIMENSIONS < d) :
    ∃ msg, v1Validate req = Except.error msg := by
  have hrej : dimensionsRejected req.dimensions = true := by
    rw [hd]
    exact dimensionsRejected_true d h0 hout
  unfold v1Validate
  rw [hrej]
  simp only [if_true]
  split
  · exact ⟨_, rfl⟩
  · split
    · exact ⟨_, rfl⟩
    · split
      · exact ⟨_, rfl⟩
      · exact ⟨_, rfl⟩

/-- Claim C7 (amended): for every /v1/embeddings request whose dimensions
field is present, nonzero, and outside [1, 768], the handler returns the
structured 400 validation error — for every encoder, so no inference
influences or is needed for the outcome; the validation chain rejects before
getEmbeddings is reached.  The amendment: a dimensions value of 0, though
outside [1, 768], is falsy in JavaScript and bypasses the range check
entirely (see the counterexample), so the claim holds only for nonzero
values. -/
theorem v1_out_of_range_dimensions_rejected (req : V1Request) (d : Int)
    (hd : req.dimensions = some d) (h0 : d ≠ 0)
    (hout : d < 1 ∨ MAX_DIMENSIONS < d) :
    ∃ msg, ∀ (sqrt : α → α) (eps : α) (encode : String → List α),
      handleV1Embeddings sqrt eps encode req = V1Outcome.invalid msg := by
  obtain ⟨msg, hmsg⟩ := v1Validate_dimensions_error req d hd h0 hout
  refine ⟨msg, fun sqrt eps encode => ?_⟩
  unfold handleV1Embeddings
  rw [hmsg]

theorem v1_out_of_range_dimensions_rejected_witness :
    ∃ msg, ∀ (sqrt : ℚ → ℚ) (eps : ℚ) (encode : String → List ℚ),
      handleV1Embeddings sqrt eps encode
        { input := some (Sum.inr ["hi"]), model := some modelId,
          dimensions := some 769, encoding_format := none }
        = V1Outcome.invalid msg :=
  v1_out_of_range_dimensions_rejected
    { input := some (Sum.inr ["hi"]), model := some modelId,
      dimensions := some 769, encoding_format := none }
    769 rfl (by decide) (Or.inr (by decide))

/-- Counterexample to claim C7 as stated: a /v1/embeddings request with
dimensions = 0 — a value outside [1, 768] — is not rejected: JavaScript
truthiness skips the range check and the request succeeds with full
native-dimension vectors and no validation error. -/
theorem v1_zero_dimensions_accepted :
    handleV1Embeddings (fun x : ℚ => x) 0 (fun _ => [1])
      { input := some (Sum.inr ["hi"]), model := some modelId,
        dimensions := some 0, encoding_format := none }
      = V1Outcome.success [(0, [(1 : ℚ)])] modelId 1 1
    ∧ (0 : Int) < 1 := by
  constructor
  · rfl
  · decide

theorem applyMatryoshka_skip (sqrt : α → α) (eps : α) (dims : Option Int)
    (e : List (List α))
    (hdims : dims = none ∨ dims = some 0
      ∨ ∃ d, dims = some d ∧ MAX_DIMENSIONS ≤ d) :
    applyMatryoshka sqrt eps dims e = e := by
  rcases hdims with rfl | rfl | ⟨d, rfl, hge⟩
  · rfl
  · rw [applyMatryoshka_some, if_neg]
    intro hc
    exact hc.1 rfl
  · rw [applyMatryoshka_some, if_neg]
    intro hc
    exact absurd hc.2 (not_lt.mpr hge)

/-- Claim C9: the legacy /embed endpoint performs no range validation on its
optional dimensions field: for any dimensions value that is absent, zero, or
at least 768, a request with truthy non-empty input succeeds and returns the
unreduced full native-dimension vectors — no 400 validation error is
produced, unlike the /v1/embeddings range check. -/
theorem legacy_embed_no_dimensions_validation (sqrt : α → α) (eps : α)
    (encode : String → List α) (input : String ⊕ List String)
    (dims : Option Int)
    (htruthy : inputTruthy (some input) = true)
    (hne : ¬ (inputTexts input).length = 0)
    (hdims : dims = none ∨ dims = some 0
      ∨ ∃ d, dims = some d ∧ MAX_DIMENSIONS ≤ d) :
    handleEmbed sqrt eps encode (some input) dims
      = EmbedOutcome.success
          ((inputTexts input).map fun t => encode (prefixes.document ++ t))
          (inputTexts input).length := by
  have hbody : handleEmbed sqrt eps encode (some input) dims
      = if (inputTexts input).length = 0 then
          EmbedOutcome.invalid "Input array cannot be empty"
        else
          EmbedOutcome.success
            (getEmbeddings sqrt eps encode (inputTexts input) dims)
            (getEmbeddings sqrt eps encode (inputTexts input) dims).length := by
    unfold handleEmbed
    rw [htruthy]
    rfl
  have hemb : getEmbeddings sqrt eps encode (inputTexts input) dims
      = (inputTexts input).map fun t => encode (prefixes.document ++ t) := by
    unfold getEmbeddings
    exact applyMatryoshka_skip sqrt eps dims _ hdims
  rw [hbody, if_neg hne, hemb, List.length_map]

theorem legacy_embed_no_dimensions_validation_witness :
    handleEmbed (fun x : ℚ => x) 0 (fun _ => [(1 : ℚ)])
        (some (Sum.inr ["a", "b"])) (some 768)
      = EmbedOutcome.success
          ((inputTexts (Sum.inr ["a", "b"])).map
            fun t => (fun _ => [(1 : ℚ)]) (prefixes.document ++ t))
          (inputTexts (Sum.inr (["a", "b"] : List String))).length :=
  legacy_embed_no_dimensions_validation (fun x : ℚ => x) 0 (fun _ => [(1 : ℚ)])
    (Sum.inr ["a", "b"]) (some 768) rfl (by decide)
    (Or.inr (Or.inr ⟨768, rfl, by decide⟩))

/-- Claim C10 (amended): for every NON-EMPTY string s, a request whose input
is the single string s behaves exactly like a request whose input is the
one-element list containing s, on both /v1/embeddings and /embed — the
single string is wrapped as a one-element batch — and with valid model and
encoding parameters the /v1 response contains exactly one embedding whose
index field is 0.  The amendment excludes the empty string: an empty single
string is falsy in JavaScript and is rejected as missing input, while the
one-element list containing the empty string succeeds (see the
counterexample). -/
theorem single_string_one_element_batch (sqrt : α → α) (eps : α)
    (encode : String → List α) (s : String) (hs : s ≠ "")
    (m : Option String) (dims : Option Int) (fmt : Option String)
    (hdims : dimensionsRejected dims = false) :
    handleV1Embeddings sqrt eps encode
        { input := some (Sum.inl s), model := m, dimensions := dims,
          encoding_format := fmt }
      = handleV1Embeddings sqrt eps encode
        { input := some (Sum.inr [s]), model := m, dimensions := dims,
          encoding_format := fmt }
    ∧ handleEmbed sqrt eps encode (some (Sum.inl s)) dims
      = handleEmbed sqrt eps encode (some (Sum.inr [s])) dims
    ∧ ∃ v, handleV1Embeddings sqrt eps encode
        { input := some (Sum.inl s), model := some modelId,
          dimensions := dims, encoding_format := none }
      = V1Outcome.success [(0, v)] modelId (getTotalTokens [s])
          (getTotalTokens [s]) := by
  have htr : inputTruthy (some (Sum.inl s)) = true := by
    simp [inputTruthy, strTruthy, hs]
  refine ⟨?_, ?_, ?_⟩
  · unfold handleV1Embeddings v1Validate
    rw [htr]
    rfl
  · unfold handleEmbed
    rw [htr]
    rfl
  · have hval3 : v1Validate
        { input := some (Sum.inl s), model := some modelId,
          dimensions := dims, encoding_format := none }
        = Except.ok ([s], dims) := by
      unfold v1Validate
      rw [htr, hdims]
      rfl
    have hlen1 : (getEmbeddings sqrt eps encode [s] dims).length = 1 := by
      unfold getEmbeddings
      rw [applyMatryoshka_length]
      rfl
    obtain ⟨v, hv⟩ := List.length_eq_one.mp hlen1
    refine ⟨v, ?_⟩
    unfold handleV1Embeddings
    rw [hval3]
    simp only [hv, List.enum]
    rfl

theorem single_string_one_element_batch_witness :
    handleV1Embeddings (fun x : ℚ => x) 0 (fun _ => [(1 : ℚ)])
        { input := some (Sum.inl "hello"), model := some modelId,
          dimensions := none, encoding_format := none }
      = handleV1Embeddings (fun x : ℚ => x) 0 (fun _ => [(1 : ℚ)])
        { input := some (Sum.inr ["hello"]), model := some modelId,
          dimensions := none, encoding_format := none }
    ∧ handleEmbed (fun x : ℚ => x) 0 (fun _ => [(1 : ℚ)])
        (some (Sum.inl "hello")) none
      = handleEmbed (fun x : ℚ => x) 0 (fun _ => [(1 : ℚ)])
        (some (Sum.inr ["hello"])) none
    ∧ ∃ v, handleV1Embeddings (fun x : ℚ => x) 0 (fun _ => [(1 : ℚ)])
        { input := some (Sum.inl "hello"), model := some modelId,
          dimensions := none, encoding_format := none }
      = V1Outcome.success [(0, v)] modelId (getTotalTokens ["hello"])
          (getTotalTokens ["hello"]) :=
  single_string_one_element_batch (fun x : ℚ => x) 0 (fun _ => [(1 : ℚ)])
    "hello" (by decide) (some modelId) none none rfl

/-- Counterexample to claim C10 as stated: for the empty string, the single
string form and the one-element list form of the same input produce different
results on /v1/embeddings: the empty single string is falsy and rejected as
missing input, while the one-element list containing the empty string is
accepted and embedded. -/
theorem v1_empty_string_single_vs_list_differ :
    handleV1Embeddings (fun x : ℚ => x) 0 (fun _ => [1])
      { input := some (Sum.inl ""), model := some modelId,
        dimensions := none, encoding_format := none }
      = V1Outcome.invalid "Missing required parameter: input"
    ∧ handleV1Embeddings (fun x : ℚ => x) 0 (fun _ => [1])
      { input := some (Sum.inr [""]), model := some modelId,
        dimensions := none, encoding_format := none }
      = V1Outcome.success [(0, [(1 : ℚ)])] modelId 0 0 := by
  constructor
  · rfl
  · rfl
